import Mathlib

/-!
# Verification of the SNCT appointment helper core

Shallow embedding of the diff/fan-out engine (`AppointmentDispatcher`),
the WebSocket criteria handling (`WsHandler`), the REST appointment
query (`RestAppointments.get`) and the upstream request/parse logic
(`SnctAppointmentScrapper`), together with theorems settling the spec
claims about them.

Timestamps (`datetime.datetime` values in the source) are modelled as
natural numbers; only their equality and total order matter to the code
under study.  The nested `user_type → control_type → vehicle_type →
(organism, site)` dictionaries are flattened into an association list
keyed by a five-field `Key`, which is exactly the granularity at which
the source reads and writes them.
-/

set_option autoImplicit false

namespace SnctHelper

/-- One appointment category: the five path/criteria fields
(`user_type`, `control_type`, `vehicle_type`, `organism`, `site`). -/
structure Key where
  user_type : String
  control_type : String
  vehicle_type : String
  organism : String
  site : String
  deriving DecidableEq, Repr

/-- One appointment event as built in `appointment_handler`: the five
key fields plus the timestamp. -/
structure Event where
  key : Key
  timestamp : Nat
  deriving DecidableEq, Repr

/-- The dispatcher's stored data: per key, either `some` list of
timestamps (successful refresh) or `none` (stored failure marker, the
`None` the scrapper puts in the payload).  A key absent from the list
was never observed. -/
abbrev Store : Type := List (Key × Option (List Nat))

/-- Whether the nested dicts hold an entry for `k`, and its value.
`none` means the key was never stored. -/
def storeFind : Store → Key → Option (Option (List Nat))
  | [], _ => none
  | (k', v) :: rest, k => if k = k' then some v else storeFind rest k

/-- The source's read `self.appointments[u][c][v].get(site, None)`:
yields `none` both when the key is absent and when the stored value is
the failure marker. -/
def storeGet (st : Store) (k : Key) : Option (List Nat) :=
  (storeFind st k).join

/-- Write `self.appointments[u][c][v][site] = value`: replace the entry
in place, or append it when the key is new. -/
def storeSet : Store → Key → Option (List Nat) → Store
  | [], k, v => [(k, v)]
  | (k', v') :: rest, k, v =>
      if k = k' then (k, v) :: rest else (k', v') :: storeSet rest k v

/-- A snapshot payload as handed to `appointment_handler`: the iteration
order of the nested dicts, one entry per key, `none` marking a failed
refresh. -/
abbrev Payload : Type := List (Key × Option (List Nat))

/-- The body of the per-site loop in `appointment_handler`
(appointment_dispatcher.py lines 55-95): given the current store and one
key's new value, return the updated store and the added/removed events
this key contributes to the cycle's batch. -/
def processKey (st : Store) (k : Key) (newv : Option (List Nat)) :
    Store × List Event × List Event :=
  match storeGet st k with
  | none =>
      -- first call for this site: store as-is, no events
      (storeSet st k newv, [], [])
  | some origList =>
      match newv with
      | none =>
          -- refresh failed: ignore, retain prior data
          (st, [], [])
      | some newList =>
          let added := newList.filter fun x => decide (x ∉ origList)
          let removed := origList.filter fun x => decide (x ∉ newList)
          (storeSet st k (some newList),
           added.map fun t => ⟨k, t⟩,
           removed.map fun t => ⟨k, t⟩)

/-- The whole diff pass of `appointment_handler`: fold `processKey` over
the payload in iteration order, accumulating the added and removed event
batches. -/
def appointment_handler : Store → Payload → Store × List Event × List Event
  | st, [] => (st, [], [])
  | st, (k, newv) :: rest =>
      let r1 := processKey st k newv
      let r2 := appointment_handler r1.1 rest
      (r2.1, r1.2.1 ++ r2.2.1, r1.2.2 ++ r2.2.2)

/-- One subscriber criterion as stored after validation: five key
fields, parsed `start_dt` and `end_dt`. -/
structure Criteria where
  user_type : String
  control_type : String
  vehicle_type : String
  organism : String
  site : String
  start_dt : Nat
  end_dt : Nat
  deriving DecidableEq, Repr

/-- The `Key` selected by a criterion's five key fields. -/
def Criteria.key (c : Criteria) : Key :=
  ⟨c.user_type, c.control_type, c.vehicle_type, c.organism, c.site⟩

/-- The `condition` list of `push_appointments_criterias`: all five key
fields equal and the timestamp within `[start_dt, end_dt]`, both ends
included. -/
def criteria_matches (c : Criteria) (a : Event) : Bool :=
  decide (c.user_type = a.key.user_type) &&
  decide (c.control_type = a.key.control_type) &&
  decide (c.vehicle_type = a.key.vehicle_type) &&
  decide (c.organism = a.key.organism) &&
  decide (c.site = a.key.site) &&
  decide (c.start_dt ≤ a.timestamp) &&
  decide (a.timestamp ≤ c.end_dt)

/-- What one call of `push_appointments_criterias` sends to each client,
in registry order: `none` when `filtered` stayed empty, otherwise the
`(added, removed)` lists of the pushed message.  Faithful to the source:
when anything matched, the push carries the whole `appointments` batch
passed in, not the `filtered` selection. -/
def push_appointments_criterias (clients : List (List Criteria))
    (appointments : List Event) (catAdded : Bool) :
    List (Option (List Event × List Event)) :=
  clients.map fun criterias =>
    let filtered := criterias.flatMap fun c => appointments.filter (criteria_matches c)
    if filtered.isEmpty then none
    else if catAdded then some (appointments, []) else some ([], appointments)

/-- One full `appointment_handler` cycle including the two delivery
calls at its end (lines 97-100): diff the payload against the store,
then, when the added batch is non-empty, deliver it with `cat="added"`,
and, when the removed batch is non-empty, make the `cat="removed"` call
— which in the source passes `new_appointments_to_publish`, i.e. the
added batch, as its argument. -/
def update_cycle (st : Store) (clients : List (List Criteria)) (payload : Payload) :
    Store × List (Option (List Event × List Event)) × List (Option (List Event × List Event)) :=
  let r := appointment_handler st payload
  let addPushes :=
    if r.2.1.isEmpty then clients.map fun _ => none
    else push_appointments_criterias clients r.2.1 true
  let remPushes :=
    if r.2.2.isEmpty then clients.map fun _ => none
    else push_appointments_criterias clients r.2.1 false
  (r.1, addPushes, remPushes)

section StoreLemmas

theorem storeFind_set_self (st : Store) (k : Key) (v : Option (List Nat)) :
    storeFind (storeSet st k v) k = some v := by
  induction st with
  | nil => simp [storeSet, storeFind]
  | cons hd tl ih =>
      obtain ⟨k', v'⟩ := hd
      by_cases h : k = k' <;> simp [storeSet, storeFind, h, ih]

theorem storeFind_set_ne (st : Store) (k k' : Key) (v : Option (List Nat))
    (h : k' ≠ k) : storeFind (storeSet st k v) k' = storeFind st k' := by
  induction st with
  | nil => simp [storeSet, storeFind, h]
  | cons hd tl ih =>
      obtain ⟨k₀, v₀⟩ := hd
      by_cases h1 : k = k₀
      · subst h1
        simp [storeSet, storeFind, h]
      · by_cases h2 : k' = k₀ <;> simp [storeSet, storeFind, h1, h2, ih]

theorem storeGet_set_self (st : Store) (k : Key) (v : Option (List Nat)) :
    storeGet (storeSet st k v) k = v := by
  simp [storeGet, storeFind_set_self]

theorem storeGet_set_ne (st : Store) (k k' : Key) (v : Option (List Nat))
    (h : k' ≠ k) : storeGet (storeSet st k v) k' = storeGet st k' := by
  simp [storeGet, storeFind_set_ne st k k' v h]

/-- `processKey` touches the store only at its own key. -/
theorem processKey_find_ne (st : Store) (k k' : Key) (v : Option (List Nat))
    (h : k' ≠ k) : storeFind (processKey st k v).1 k' = storeFind st k' := by
  unfold processKey
  rcases hg : storeGet st k with _ | l
  · simp [storeFind_set_ne st k k' v h]
  · rcases v with _ | nl
    · simp
    · simp [storeFind_set_ne st k k' _ h]

theorem processKey_get_ne (st : Store) (k k' : Key) (v : Option (List Nat))
    (h : k' ≠ k) : storeGet (processKey st k v).1 k' = storeGet st k' := by
  simp [storeGet, processKey_find_ne st k k' v h]

/-- Every event `processKey` emits carries its own key. -/
theorem processKey_events_key (st : Store) (k : Key) (v : Option (List Nat)) :
    ∀ e ∈ (processKey st k v).2.1 ++ (processKey st k v).2.2, e.key = k := by
  intro e he
  unfold processKey at he
  rcases hg : storeGet st k with _ | l
  · simp [hg] at he
  · rcases v with _ | nl
    · simp [hg] at he
    · simp only [hg, List.mem_append, List.mem_map, List.mem_filter] at he
      rcases he with ⟨t, _, rfl⟩ | ⟨t, _, rfl⟩ <;> rfl

/-- The handler leaves keys outside the payload untouched. -/
theorem handler_find_notin (payload : Payload) (st : Store) (k : Key)
    (h : ∀ v, (k, v) ∉ payload) :
    storeFind (appointment_handler st payload).1 k = storeFind st k := by
  induction payload generalizing st with
  | nil => rfl
  | cons hd tl ih =>
      obtain ⟨k₀, v₀⟩ := hd
      have hne : k ≠ k₀ := by
        intro hk
        exact h v₀ (by simp [hk])
      rw [appointment_handler]
      have htl : ∀ v, (k, v) ∉ tl := fun v hv => h v (List.mem_cons_of_mem _ hv)
      rw [ih _ htl, processKey_find_ne _ _ _ _ hne]

theorem handler_get_notin (payload : Payload) (st : Store) (k : Key)
    (h : ∀ v, (k, v) ∉ payload) :
    storeGet (appointment_handler st payload).1 k = storeGet st k := by
  simp [storeGet, handler_find_notin payload st k h]

/-- Every event the handler emits carries a key of the payload. -/
theorem handler_events_key_mem (payload : Payload) (st : Store) :
    ∀ e ∈ (appointment_handler st payload).2.1 ++ (appointment_handler st payload).2.2,
      ∃ v, (e.key, v) ∈ payload := by
  induction payload generalizing st with
  | nil => intro e he; simp [appointment_handler] at he
  | cons hd tl ih =>
      obtain ⟨k₀, v₀⟩ := hd
      intro e he
      rw [appointment_handler] at he
      simp only [List.mem_append] at he
      rcases he with (h1 | h2) | (h1 | h2)
      · refine ⟨v₀, ?_⟩
        have := processKey_events_key st k₀ v₀ e (List.mem_append.2 (Or.inl h1))
        simp [this]
      · obtain ⟨v, hv⟩ := ih (processKey st k₀ v₀).1 e (List.mem_append.2 (Or.inl h2))
        exact ⟨v, List.mem_cons_of_mem _ hv⟩
      · refine ⟨v₀, ?_⟩
        have := processKey_events_key st k₀ v₀ e (List.mem_append.2 (Or.inr h1))
        simp [this]
      · obtain ⟨v, hv⟩ := ih (processKey st k₀ v₀).1 e (List.mem_append.2 (Or.inr h2))
        exact ⟨v, List.mem_cons_of_mem _ hv⟩

/-- The handler distributes over payload concatenation. -/
theorem handler_append (p q : Payload) (st : Store) :
    appointment_handler st (p ++ q) =
      ((appointment_handler (appointment_handler st p).1 q).1,
       (appointment_handler st p).2.1 ++ (appointment_handler (appointment_handler st p).1 q).2.1,
       (appointment_handler st p).2.2 ++ (appointment_handler (appointment_handler st p).1 q).2.2) := by
  induction p generalizing st with
  | nil => simp [appointment_handler]
  | cons hd tl ih =>
      obtain ⟨k₀, v₀⟩ := hd
      show appointment_handler st ((k₀, v₀) :: (tl ++ q)) = _
      rw [appointment_handler, appointment_handler, ih]
      simp [List.append_assoc]

end StoreLemmas

section ProcessKeyLemmas

/-- First observation of a key: the payload value is stored as-is and no
events are emitted, also when that value is the failure marker. -/
theorem processKey_first (st : Store) (k : Key) (v : Option (List Nat))
    (h : storeGet st k = none) : processKey st k v = (storeSet st k v, [], []) := by
  unfold processKey; rw [h]

/-- A failed refresh on a key with prior data is skipped entirely. -/
theorem processKey_skip (st : Store) (k : Key) (oldl : List Nat)
    (h : storeGet st k = some oldl) : processKey st k none = (st, [], []) := by
  unfold processKey; rw [h]

/-- The diff branch: set differences by timestamp value, then the whole
new list replaces the stored one. -/
theorem processKey_diff (st : Store) (k : Key) (oldl newl : List Nat)
    (h : storeGet st k = some oldl) :
    processKey st k (some newl) =
      (storeSet st k (some newl),
       (newl.filter fun x => decide (x ∉ oldl)).map fun t => ⟨k, t⟩,
       (oldl.filter fun x => decide (x ∉ newl)).map fun t => ⟨k, t⟩) := by
  unfold processKey; rw [h]

theorem processKey_get_self_some (st : Store) (k : Key) (newl : List Nat) :
    storeGet (processKey st k (some newl)).1 k = some newl := by
  unfold processKey
  rcases h : storeGet st k with _ | oldl <;> simp [storeGet_set_self]

end ProcessKeyLemmas

/-- A sample key used to instantiate the universally quantified theorems
at concrete inputs. -/
def kSample : Key := ⟨"PRIVATE", "REGULAR", "car", "snct", "esch_sur_alzette"⟩

/-- A second sample key, differing from `kSample` in its site. -/
def kSampleB : Key := ⟨"PRIVATE", "REGULAR", "car", "snct", "sandweiler"⟩

/-- C1: for a key whose old and new values are both successful timestamp
lists, `appointment_handler` emits as Added exactly the timestamps of the
new list absent from the old, as Removed exactly those of the old list
absent from the new, stores the new list as the key's value, and the old
value plus the added minus the removed timestamps reproduces the new
value. -/
theorem diff_added_removed_correct (st : Store) (pre post : Payload) (k : Key)
    (oldl newl : List Nat)
    (hold : storeGet st k = some oldl)
    (hpre : ∀ v, (k, v) ∉ pre) (hpost : ∀ v, (k, v) ∉ post) :
    let r := appointment_handler st (pre ++ (k, some newl) :: post)
    let addedTs := (r.2.1.filter fun e => decide (e.key = k)).map Event.timestamp
    let removedTs := (r.2.2.filter fun e => decide (e.key = k)).map Event.timestamp
    addedTs = newl.filter (fun t => decide (t ∉ oldl))
    ∧ removedTs = oldl.filter (fun t => decide (t ∉ newl))
    ∧ storeGet r.1 k = some newl
    ∧ (∀ t : Nat, ((t ∈ oldl ∨ t ∈ addedTs) ∧ t ∉ removedTs) ↔ t ∈ newl) := by
  intro r addedTs removedTs
  have hpre' : storeGet (appointment_handler st pre).1 k = some oldl := by
    rw [handler_get_notin pre st k hpre, hold]
  have hmid := processKey_diff (appointment_handler st pre).1 k oldl newl hpre'
  have hr : r =
      ((appointment_handler (processKey (appointment_handler st pre).1 k (some newl)).1 post).1,
       (appointment_handler st pre).2.1 ++
         ((processKey (appointment_handler st pre).1 k (some newl)).2.1 ++
           (appointment_handler (processKey (appointment_handler st pre).1 k (some newl)).1 post).2.1),
       (appointment_handler st pre).2.2 ++
         ((processKey (appointment_handler st pre).1 k (some newl)).2.2 ++
           (appointment_handler (processKey (appointment_handler st pre).1 k (some newl)).1 post).2.2)) := by
    show appointment_handler st (pre ++ (k, some newl) :: post) = _
    rw [handler_append]
    rw [appointment_handler]
  have hprekeys : ∀ e ∈ (appointment_handler st pre).2.1 ++ (appointment_handler st pre).2.2,
      e.key ≠ k := by
    intro e he hk
    obtain ⟨v, hv⟩ := handler_events_key_mem pre st e he
    rw [hk] at hv
    exact hpre v hv
  have hpostkeys : ∀ e ∈ (appointment_handler (processKey (appointment_handler st pre).1 k (some newl)).1 post).2.1
        ++ (appointment_handler (processKey (appointment_handler st pre).1 k (some newl)).1 post).2.2,
      e.key ≠ k := by
    intro e he hk
    obtain ⟨v, hv⟩ := handler_events_key_mem post _ e he
    rw [hk] at hv
    exact hpost v hv
  have hfilter_pre1 : (appointment_handler st pre).2.1.filter (fun e => decide (e.key = k)) = [] := by
    rw [List.filter_eq_nil_iff]
    intro e he
    simpa using hprekeys e (List.mem_append.2 (Or.inl he))
  have hfilter_pre2 : (appointment_handler st pre).2.2.filter (fun e => decide (e.key = k)) = [] := by
    rw [List.filter_eq_nil_iff]
    intro e he
    simpa using hprekeys e (List.mem_append.2 (Or.inr he))
  have hfilter_post1 : (appointment_handler (processKey (appointment_handler st pre).1 k (some newl)).1 post).2.1.filter
      (fun e => decide (e.key = k)) = [] := by
    rw [List.filter_eq_nil_iff]
    intro e he
    simpa using hpostkeys e (List.mem_append.2 (Or.inl he))
  have hfilter_post2 : (appointment_handler (processKey (appointment_handler st pre).1 k (some newl)).1 post).2.2.filter
      (fun e => decide (e.key = k)) = [] := by
    rw [List.filter_eq_nil_iff]
    intro e he
    simpa using hpostkeys e (List.mem_append.2 (Or.inr he))
  have hmap : ∀ l : List Nat,
      (((l.map fun t => (⟨k, t⟩ : Event)).filter fun e => decide (e.key = k)).map Event.timestamp) = l := by
    intro l
    induction l with
    | nil => rfl
    | cons hd tl ih => simpa using ih
  have hadded : addedTs = newl.filter (fun t => decide (t ∉ oldl)) := by
    show (r.2.1.filter fun e => decide (e.key = k)).map Event.timestamp = _
    rw [hr]
    simp only [List.filter_append, hfilter_pre1, hfilter_post1, List.map_append,
      List.nil_append, List.append_nil, List.map_nil]
    rw [hmid]
    exact hmap _
  have hremoved : removedTs = oldl.filter (fun t => decide (t ∉ newl)) := by
    show (r.2.2.filter fun e => decide (e.key = k)).map Event.timestamp = _
    rw [hr]
    simp only [List.filter_append, hfilter_pre2, hfilter_post2, List.map_append,
      List.nil_append, List.append_nil, List.map_nil]
    rw [hmid]
    exact hmap _
  refine ⟨hadded, hremoved, ?_, ?_⟩
  · show storeGet r.1 k = some newl
    rw [hr]
    rw [handler_get_notin post _ k hpost, processKey_get_self_some]
  · intro t
    rw [hadded, hremoved]
    simp only [List.mem_filter, decide_eq_true_eq]
    by_cases h1 : t ∈ oldl <;> by_cases h2 : t ∈ newl <;> simp [h1, h2]

/-- Evaluation of `diff_added_removed_correct` at a concrete store and
payload: prior `[10, 11]`, new `[11, 12]` gives added `[12]`. -/
theorem diff_added_removed_correct_witness :
    ((appointment_handler [(kSample, some [10, 11])] [(kSample, some [11, 12])]).2.1.filter
      fun e => decide (e.key = kSample)).map Event.timestamp = [12] := by
  have h := diff_added_removed_correct [(kSample, some [10, 11])] [] [] kSample [10, 11] [11, 12]
    (by decide) (by simp) (by simp)
  have h1 := h.1
  simp only [List.nil_append] at h1
  rw [h1]
  decide

/-- C3: a failure marker for a key holding prior data is skipped: the
whole update behaves exactly as if the key were absent from the payload,
the key's stored timestamps survive unchanged, and no event of the cycle
carries that key. -/
theorem failed_key_retains_and_frames (st : Store) (pre post : Payload) (k : Key)
    (oldl : List Nat)
    (hold : storeGet st k = some oldl)
    (hpre : ∀ v, (k, v) ∉ pre) (hpost : ∀ v, (k, v) ∉ post) :
    appointment_handler st (pre ++ (k, none) :: post) = appointment_handler st (pre ++ post)
    ∧ storeGet (appointment_handler st (pre ++ (k, none) :: post)).1 k = some oldl
    ∧ ∀ e ∈ (appointment_handler st (pre ++ (k, none) :: post)).2.1
          ++ (appointment_handler st (pre ++ (k, none) :: post)).2.2,
        e.key ≠ k := by
  have hpre' : storeGet (appointment_handler st pre).1 k = some oldl := by
    rw [handler_get_notin pre st k hpre, hold]
  have hskip := processKey_skip (appointment_handler st pre).1 k oldl hpre'
  have heq : appointment_handler st (pre ++ (k, none) :: post)
      = appointment_handler st (pre ++ post) := by
    rw [handler_append, handler_append]
    rw [appointment_handler, hskip]
    simp
  refine ⟨heq, ?_, ?_⟩
  · rw [heq]
    have : ∀ v, (k, v) ∉ pre ++ post := by
      intro v hv
      rcases List.mem_append.1 hv with h | h
      · exact hpre v h
      · exact hpost v h
    rw [handler_get_notin (pre ++ post) st k this, hold]
  · rw [heq]
    intro e he hk
    obtain ⟨v, hv⟩ := handler_events_key_mem (pre ++ post) st e he
    rw [hk] at hv
    rcases List.mem_append.1 hv with h | h
    · exact hpre v h
    · exact hpost v h

/-- Evaluation of `failed_key_retains_and_frames` at a concrete input: a
failed key is processed identically to an absent one and keeps its
stored data. -/
theorem failed_key_retains_and_frames_witness :
    appointment_handler [(kSample, some [1]), (kSampleB, some [2])]
        [(kSample, none), (kSampleB, some [2, 3])]
      = appointment_handler [(kSample, some [1]), (kSampleB, some [2])] [(kSampleB, some [2, 3])]
    ∧ storeGet (appointment_handler [(kSample, some [1]), (kSampleB, some [2])]
        [(kSample, none), (kSampleB, some [2, 3])]).1 kSample = some [1] := by
  have h := failed_key_retains_and_frames [(kSample, some [1]), (kSampleB, some [2])]
    [] [(kSampleB, some [2, 3])] kSample [1]
    (by decide) (by simp)
    (by
      intro v hv
      rw [List.mem_singleton] at hv
      have hk : kSample = kSampleB := congrArg Prod.fst hv
      exact absurd hk (by decide))
  exact ⟨h.1, h.2.1⟩

/-- After an update whose payload keys are distinct (as dict keys are),
every key that carried a successful list in the payload stores exactly
that list. -/
theorem handler_get_of_mem (payload : Payload) (st : Store) (k : Key) (l : List Nat)
    (hmem : (k, some l) ∈ payload) (hnd : (payload.map Prod.fst).Nodup) :
    storeGet (appointment_handler st payload).1 k = some l := by
  induction payload generalizing st with
  | nil => cases hmem
  | cons hd tl ih =>
      obtain ⟨k₀, v₀⟩ := hd
      simp only [List.map_cons, List.nodup_cons] at hnd
      rw [appointment_handler]
      rcases List.mem_cons.1 hmem with heq | htl
      · have hk : k = k₀ := congrArg Prod.fst heq
        subst hk
        have hnotin : ∀ v, (k, v) ∉ tl := by
          intro v hv'
          exact hnd.1 (List.mem_map.2 ⟨(k, v), hv', rfl⟩)
        rw [handler_get_notin tl _ k hnotin]
        have hv : v₀ = some l := (congrArg Prod.snd heq).symm
        rw [hv]
        exact processKey_get_self_some _ k l
      · exact ih (processKey st k₀ v₀).1 htl hnd.2

/-- When every successful payload entry already equals the stored value
and every failed entry is already stored-or-absent, the diff pass emits
no events. -/
theorem handler_stable (payload : Payload) (st : Store)
    (hstable : ∀ k l, (k, some l) ∈ payload → storeGet st k = some l) :
    (appointment_handler st payload).2.1 = [] ∧ (appointment_handler st payload).2.2 = [] := by
  induction payload generalizing st with
  | nil => exact ⟨rfl, rfl⟩
  | cons hd tl ih =>
      obtain ⟨k₀, v₀⟩ := hd
      rw [appointment_handler]
      rcases v₀ with _ | nl
      · -- failure marker in the payload
        rcases hg : storeGet st k₀ with _ | oldl
        · rw [processKey_first st k₀ none hg]
          have htl : ∀ k l, (k, some l) ∈ tl → storeGet (storeSet st k₀ none) k = some l := by
            intro k l hkl
            have hs := hstable k l (List.mem_cons_of_mem _ hkl)
            have hne : k ≠ k₀ := by
              intro hk
              rw [hk, hg] at hs
              cases hs
            rw [storeGet_set_ne st k₀ k none hne]
            exact hs
          have := ih (storeSet st k₀ none) htl
          simp [this.1, this.2]
        · rw [processKey_skip st k₀ oldl hg]
          have htl : ∀ k l, (k, some l) ∈ tl → storeGet st k = some l := by
            intro k l hkl
            exact hstable k l (List.mem_cons_of_mem _ hkl)
          have := ih st htl
          simp [this.1, this.2]
      · -- successful list in the payload: it must equal the stored one
        have hg : storeGet st k₀ = some nl := hstable k₀ nl (List.mem_cons_self _ _)
        rw [processKey_diff st k₀ nl nl hg]
        have hfilter : nl.filter (fun x => decide (x ∉ nl)) = [] := by
          rw [List.filter_eq_nil_iff]
          intro a ha
          simp [ha]
        have htl : ∀ k l, (k, some l) ∈ tl → storeGet (storeSet st k₀ (some nl)) k = some l := by
          intro k l hkl
          have hs := hstable k l (List.mem_cons_of_mem _ hkl)
          by_cases hk : k = k₀
          · subst hk
            rw [storeGet_set_self]
            rw [hg] at hs
            exact hs ▸ rfl
          · rw [storeGet_set_ne st k₀ k (some nl) hk]
            exact hs
        have := ih (storeSet st k₀ (some nl)) htl
        simp [hfilter, this.1, this.2]

/-- C7: feeding the same snapshot twice produces, on the second call,
empty added and removed batches and no delivery to any client. -/
theorem update_idempotent (st : Store) (payload : Payload) (clients : List (List Criteria))
    (hnd : (payload.map Prod.fst).Nodup) :
    let st1 := (appointment_handler st payload).1
    (appointment_handler st1 payload).2.1 = []
    ∧ (appointment_handler st1 payload).2.2 = []
    ∧ (update_cycle st1 clients payload).2.1 = clients.map (fun _ => none)
    ∧ (update_cycle st1 clients payload).2.2 = clients.map (fun _ => none) := by
  intro st1
  have hstable : ∀ k l, (k, some l) ∈ payload → storeGet st1 k = some l := by
    intro k l hkl
    exact handler_get_of_mem payload st k l hkl hnd
  have h := handler_stable payload st1 hstable
  refine ⟨h.1, h.2, ?_, ?_⟩
  · show (update_cycle st1 clients payload).2.1 = _
    unfold update_cycle
    simp [h.1]
  · show (update_cycle st1 clients payload).2.2 = _
    unfold update_cycle
    simp [h.2]

/-- Evaluation of `update_idempotent` at a concrete snapshot with one
successful and one failed key. -/
theorem update_idempotent_witness :
    (appointment_handler
        (appointment_handler [] [(kSample, some [7, 8]), (kSampleB, none)]).1
        [(kSample, some [7, 8]), (kSampleB, none)]).2.1 = []
    ∧ (appointment_handler
        (appointment_handler [] [(kSample, some [7, 8]), (kSampleB, none)]).1
        [(kSample, some [7, 8]), (kSampleB, none)]).2.2 = [] := by
  have h := update_idempotent [] [(kSample, some [7, 8]), (kSampleB, none)] []
    (by decide)
  exact ⟨h.1, h.2.1⟩

/-- C10: a key first observed as a failure marker has that marker stored
as its data with no events; a later successful value for it is again
treated as a first observation — stored whole, with no Added or Removed
events for the key in that cycle. -/
theorem failure_then_success_first_observation
    (st : Store) (k : Key) (l : List Nat) (pre1 post1 pre2 post2 : Payload)
    (h0 : storeFind st k = none)
    (hp1 : ∀ v, (k, v) ∉ pre1) (hq1 : ∀ v, (k, v) ∉ post1)
    (hp2 : ∀ v, (k, v) ∉ pre2) (hq2 : ∀ v, (k, v) ∉ post2) :
    let r1 := appointment_handler st (pre1 ++ (k, none) :: post1)
    let r2 := appointment_handler r1.1 (pre2 ++ (k, some l) :: post2)
    storeFind r1.1 k = some none
    ∧ (∀ e ∈ r1.2.1 ++ r1.2.2, e.key ≠ k)
    ∧ storeGet r2.1 k = some l
    ∧ (∀ e ∈ r2.2.1 ++ r2.2.2, e.key ≠ k) := by
  intro r1 r2
  have hget0 : storeGet st k = none := by simp [storeGet, h0]
  have hpre1' : storeGet (appointment_handler st pre1).1 k = none := by
    rw [handler_get_notin pre1 st k hp1]; exact hget0
  have hfirst1 := processKey_first (appointment_handler st pre1).1 k none hpre1'
  have hr1 : r1 =
      ((appointment_handler (storeSet (appointment_handler st pre1).1 k none) post1).1,
       (appointment_handler st pre1).2.1
         ++ (appointment_handler (storeSet (appointment_handler st pre1).1 k none) post1).2.1,
       (appointment_handler st pre1).2.2
         ++ (appointment_handler (storeSet (appointment_handler st pre1).1 k none) post1).2.2) := by
    show appointment_handler st (pre1 ++ (k, none) :: post1) = _
    rw [handler_append, appointment_handler, hfirst1]
    simp
  have hfind1 : storeFind r1.1 k = some none := by
    rw [hr1]
    rw [handler_find_notin post1 _ k hq1, storeFind_set_self]
  have hev1 : ∀ e ∈ r1.2.1 ++ r1.2.2, e.key ≠ k := by
    intro e he hk
    rw [hr1] at he
    simp only [List.mem_append] at he
    rcases he with (h1 | h2) | (h1 | h2)
    · obtain ⟨v, hv⟩ := handler_events_key_mem pre1 st e (List.mem_append.2 (Or.inl h1))
      rw [hk] at hv; exact hp1 v hv
    · obtain ⟨v, hv⟩ := handler_events_key_mem post1 _ e (List.mem_append.2 (Or.inl h2))
      rw [hk] at hv; exact hq1 v hv
    · obtain ⟨v, hv⟩ := handler_events_key_mem pre1 st e (List.mem_append.2 (Or.inr h1))
      rw [hk] at hv; exact hp1 v hv
    · obtain ⟨v, hv⟩ := handler_events_key_mem post1 _ e (List.mem_append.2 (Or.inr h2))
      rw [hk] at hv; exact hq1 v hv
  have hget1 : storeGet r1.1 k = none := by simp [storeGet, hfind1]
  have hpre2' : storeGet (appointment_handler r1.1 pre2).1 k = none := by
    rw [handler_get_notin pre2 r1.1 k hp2]; exact hget1
  have hfirst2 := processKey_first (appointment_handler r1.1 pre2).1 k (some l) hpre2'
  have hr2 : r2 =
      ((appointment_handler (storeSet (appointment_handler r1.1 pre2).1 k (some l)) post2).1,
       (appointment_handler r1.1 pre2).2.1
         ++ (appointment_handler (storeSet (appointment_handler r1.1 pre2).1 k (some l)) post2).2.1,
       (appointment_handler r1.1 pre2).2.2
         ++ (appointment_handler (storeSet (appointment_handler r1.1 pre2).1 k (some l)) post2).2.2) := by
    show appointment_handler r1.1 (pre2 ++ (k, some l) :: post2) = _
    rw [handler_append, appointment_handler, hfirst2]
    simp
  refine ⟨hfind1, hev1, ?_, ?_⟩
  · rw [hr2]
    rw [handler_get_notin post2 _ k hq2, storeGet_set_self]
  · intro e he hk
    rw [hr2] at he
    simp only [List.mem_append] at he
    rcases he with (h1 | h2) | (h1 | h2)
    · obtain ⟨v, hv⟩ := handler_events_key_mem pre2 r1.1 e (List.mem_append.2 (Or.inl h1))
      rw [hk] at hv; exact hp2 v hv
    · obtain ⟨v, hv⟩ := handler_events_key_mem post2 _ e (List.mem_append.2 (Or.inl h2))
      rw [hk] at hv; exact hq2 v hv
    · obtain ⟨v, hv⟩ := handler_events_key_mem pre2 r1.1 e (List.mem_append.2 (Or.inr h1))
      rw [hk] at hv; exact hp2 v hv
    · obtain ⟨v, hv⟩ := handler_events_key_mem post2 _ e (List.mem_append.2 (Or.inr h2))
      rw [hk] at hv; exact hq2 v hv

/-- Evaluation of `failure_then_success_first_observation` at a concrete
store and payload sequence. -/
theorem failure_then_success_first_observation_witness :
    storeFind (appointment_handler [] [(kSample, none)]).1 kSample = some none
    ∧ storeGet (appointment_handler (appointment_handler [] [(kSample, none)]).1
        [(kSample, some [10])]).1 kSample = some [10] := by
  have h := failure_then_success_first_observation [] kSample [10] [] [] [] []
    (by decide) (by simp) (by simp) (by simp) (by simp)
  exact ⟨h.1, h.2.2.1⟩

/-- A sample criterion selecting `kSample` with the window `[12, 12]`. -/
def cSample : Criteria :=
  ⟨"PRIVATE", "REGULAR", "car", "snct", "esch_sur_alzette", 12, 12⟩

/-- C2 (divergence witness): with prior `[10, 11]` and new `[11, 12, 20]`
on one key and a single subscriber whose only criterion matches only
timestamp `12`, the cycle makes two deliveries instead of one merged
one: the `added` push carries the whole batch `[12, 20]` including the
non-matching `20`, and the `removed` push carries that same added batch
— the actual removed event `10` is never delivered. -/
theorem fan_out_code_divergence :
    update_cycle [(kSample, some [10, 11])] [[cSample]] [(kSample, some [11, 12, 20])]
      = ([(kSample, some [11, 12, 20])],
         [some ([⟨kSample, 12⟩, ⟨kSample, 20⟩], [])],
         [some ([], [⟨kSample, 12⟩, ⟨kSample, 20⟩])])
    ∧ criteria_matches cSample ⟨kSample, 20⟩ = false
    ∧ criteria_matches cSample ⟨kSample, 10⟩ = false := by
  refine ⟨by rfl, by rfl, by rfl⟩

/-- The message `push_appointments` sends: the `added` and `removed`
lists of the `{"status": 200, "added": ..., "removed": ...}` JSON. -/
structure WsPush where
  added : List Event
  removed : List Event
  deriving DecidableEq, Repr

/-- `push_initial_appointments` (ws_appointments.py lines 346-371):
for each registered criterion look up the stored value of its key, skip
it when the stored value is the failure marker, and otherwise keep every
stored timestamp inside `[start_dt, end_dt]`, both ends included. -/
def push_initial_appointments (st : Store) (cs : List Criteria) : List Event :=
  cs.flatMap fun c =>
    match storeGet st c.key with
    | none => []
    | some l =>
        (l.filter fun t => decide (c.start_dt ≤ t) && decide (t ≤ c.end_dt)).map
          fun t => ⟨c.key, t⟩

/-- The initial push delivered right after a successful criteria
registration: the selected timestamps as `added`, with `removed` left at
its default `[]`. -/
def initial_push_message (st : Store) (cs : List Criteria) : WsPush :=
  ⟨push_initial_appointments st cs, []⟩

/-- One raw criterion from a WebSocket message.  `start_dt`/`end_dt`
stand for the outcome of `dateutil.parser.parse` on the raw strings:
`some` the parsed timestamp, `none` when parsing raises. -/
structure RawCriteria where
  user_type : String
  control_type : String
  vehicle_type : String
  organism : String
  site : String
  start_dt : Option Nat
  end_dt : Option Nat
  deriving DecidableEq, Repr

/-- The validation error messages are the assert messages of the
source, modelled as the field name the message opens with plus the
allowed values it lists; `render` rebuilds the sentence. -/
def renderAllowed (field_named : String) (allowed : List String) : String :=
  field_named ++ " must be one of " ++ String.intercalate ", " allowed

/-- `validate_criterias` on a single criterion (ws_appointments.py lines
315-342), checks in source order with the source's literal assert
messages — including the copy-paste slips that open the `control_type`
and `organism` messages with the text `user_type`.  The known vehicle
types and `(organism, site)` pairs — the keys of the nested appointment
dicts — are passed in as `vkeys` and `skeys`. -/
def validate_criteria (vkeys : List String) (skeys : List (String × String))
    (c : RawCriteria) : Except String Criteria :=
  if c.user_type ∉ ["PRIVATE", "PROFESSIONAL"] then
    .error (renderAllowed "user_type" ["PRIVATE", "PROFESSIONAL"])
  else if c.control_type ∉ ["REGULAR", "REJECTED"] then
    .error (renderAllowed "user_type" ["REGULAR", "REJECTED"])
  else if c.vehicle_type ∉ vkeys then
    .error (renderAllowed "vehicle_type" vkeys)
  else if c.organism ∉ ["snct"] then
    .error (renderAllowed "user_type" ["snct"])
  else if (c.organism, c.site) ∉ skeys then
    .error (renderAllowed "site" (skeys.map fun p => p.1 ++ " " ++ p.2))
  else
    match c.start_dt with
    | none => .error "start_dt must be a date like 2019-01-01 or a datetime like 2019-01-01T08:15:00"
    | some s =>
        match c.end_dt with
        | none => .error "end_dt must be a date like 2019-02-01 or a datetime like 2019-01-01T09:30:00"
        | some e =>
            .ok ⟨c.user_type, c.control_type, c.vehicle_type, c.organism, c.site, s, e⟩

/-- `validate_criterias` over the whole received list: the first failing
assert aborts the message. -/
def validate_criterias (vkeys : List String) (skeys : List (String × String)) :
    List RawCriteria → Except String (List Criteria)
  | [] => .ok []
  | c :: rest =>
      match validate_criteria vkeys skeys c with
      | .error m => .error m
      | .ok c' =>
          match validate_criterias vkeys skeys rest with
          | .error m => .error m
          | .ok rest' => .ok (c' :: rest')

/-- What the WebSocket handler sends back for one criterias message. -/
inductive WsReply where
  | push : WsPush → WsReply
  | invalid : String → WsReply
  deriving DecidableEq, Repr

/-- The criterias-message branch of `run_forever` (lines 396-408):
on an `AssertionError` reply `{"message": ..., "status": 400}` and leave
the registration untouched; on success push the initial appointments and
register the parsed criteria list, replacing the previous one. -/
def handle_criterias_message (vkeys : List String) (skeys : List (String × String))
    (st : Store) (reg : Option (List Criteria)) (raw : List RawCriteria) :
    Option (List Criteria) × WsReply :=
  match validate_criterias vkeys skeys raw with
  | .error m => (reg, .invalid m)
  | .ok cs => (some cs, .push (initial_push_message st cs))

/-- C4: when a criteria message validates, the handler replaces the
registration and immediately delivers an initial push whose `added` list
holds exactly the stored timestamps of the keys selected by the new
criteria that lie inside the criterion's inclusive window — keys whose
stored value is the failure marker contribute nothing — and whose
`removed` list is empty. -/
theorem initial_push_contents (vkeys : List String) (skeys : List (String × String))
    (st : Store) (reg : Option (List Criteria)) (raw : List RawCriteria)
    (cs : List Criteria)
    (hok : validate_criterias vkeys skeys raw = .ok cs) :
    handle_criterias_message vkeys skeys st reg raw
      = (some cs, .push (initial_push_message st cs))
    ∧ (∀ e : Event, e ∈ (initial_push_message st cs).added ↔
        ∃ c ∈ cs, e.key = c.key
          ∧ (∃ l, storeGet st c.key = some l ∧ e.timestamp ∈ l)
          ∧ c.start_dt ≤ e.timestamp ∧ e.timestamp ≤ c.end_dt)
    ∧ (initial_push_message st cs).removed = [] := by
  refine ⟨?_, ?_, rfl⟩
  · unfold handle_criterias_message
    rw [hok]
  · intro e
    constructor
    · intro he
      simp only [initial_push_message, push_initial_appointments, List.mem_flatMap] at he
      obtain ⟨c, hc, he⟩ := he
      rcases hl : storeGet st c.key with _ | l
      · rw [hl] at he
        cases he
      · rw [hl] at he
        simp only [List.mem_map, List.mem_filter, Bool.and_eq_true, decide_eq_true_eq] at he
        obtain ⟨t, ⟨htl, h1, h2⟩, rfl⟩ := he
        exact ⟨c, hc, rfl, ⟨l, hl, htl⟩, h1, h2⟩
    · rintro ⟨c, hc, hkey, ⟨l, hl, htl⟩, h1, h2⟩
      obtain ⟨ek, et⟩ := e
      simp only at hkey h1 h2
      subst hkey
      simp only [initial_push_message, push_initial_appointments, List.mem_flatMap]
      refine ⟨c, hc, ?_⟩
      rw [hl]
      simp only [List.mem_map, List.mem_filter, Bool.and_eq_true, decide_eq_true_eq]
      exact ⟨et, ⟨htl, h1, h2⟩, rfl⟩

/-- Evaluation of `initial_push_contents` at the spec's own scenario: a
snapshot holding `[0900, 1030, 1100]` for the matched key and a window
covering only the last two yields the initial push `[1030, 1100]` and an
empty removed list. -/
theorem initial_push_contents_witness :
    handle_criterias_message ["car"] [("snct", "esch_sur_alzette")]
        [(kSample, some [900, 1030, 1100])] none
        [⟨"PRIVATE", "REGULAR", "car", "snct", "esch_sur_alzette", some 1000, some 1200⟩]
      = (some [⟨"PRIVATE", "REGULAR", "car", "snct", "esch_sur_alzette", 1000, 1200⟩],
         .push ⟨[⟨kSample, 1030⟩, ⟨kSample, 1100⟩], []⟩) := by
  have h := initial_push_contents ["car"] [("snct", "esch_sur_alzette")]
    [(kSample, some [900, 1030, 1100])] none
    [⟨"PRIVATE", "REGULAR", "car", "snct", "esch_sur_alzette", some 1000, some 1200⟩]
    [⟨"PRIVATE", "REGULAR", "car", "snct", "esch_sur_alzette", 1000, 1200⟩]
    (by rfl)
  rw [h.1]
  rfl

/-- A raw criterion naming the unknown organism `dekra`, otherwise
valid. -/
def rawDekra : RawCriteria :=
  ⟨"PRIVATE", "REGULAR", "car", "dekra", "esch_sur_alzette", some 0, some 100⟩

/-- Whether an error message opens with the given field name, the shape
every assert message of the source uses for the field it reports. -/
def message_names_field (field msg : String) : Bool :=
  field.toList.isPrefixOf msg.toList

/-- C5 (divergence witness): an unknown organism is rejected and no
registration happens, but the error message opens with `user_type`, not
`organism` — the source's assert message is a copy-paste slip and does
not name the invalid field. -/
theorem validation_error_names_wrong_field :
    validate_criterias ["car"] [("snct", "esch_sur_alzette")] [rawDekra]
      = .error (renderAllowed "user_type" ["snct"])
    ∧ (renderAllowed "user_type" ["snct"]) = "user_type must be one of snct"
    ∧ message_names_field "organism" "user_type must be one of snct" = false
    ∧ message_names_field "user_type" "user_type must be one of snct" = true
    ∧ handle_criterias_message ["car"] [("snct", "esch_sur_alzette")] []
        (some [cSample]) [rawDekra]
      = (some [cSample], .invalid (renderAllowed "user_type" ["snct"])) := by
  refine ⟨by rfl, by rfl, by rfl, by rfl, by rfl⟩

/-- The three response shapes `RestAppointments.get` can produce through
the REST error middleware: a 200 with the timestamp array (ISO rendering
abstracted away, timestamps kept as numbers), a 400
`{"message", "status"}` from an `AssertionError`, and the generic 500
the middleware returns for any other exception. -/
inductive RestResponse where
  | ok : List Nat → RestResponse
  | invalid : String → RestResponse
  | internalError : RestResponse
  deriving DecidableEq, Repr

/-- `RestAppointments.get` (rest_appointments.py lines 110-139): the
source's asserts in order, the two `strptime` calls (`start_date` and
`end_date` given as their parse outcome), then the comprehension
`[x.isoformat() for x in sorted(appointments) if start_date >= x < end_date]`
— Python's chained comparison, `start_date >= x and x < end_date`.  A
stored failure marker makes `sorted(None)` raise, which the middleware
turns into the generic 500. -/
def rest_appointments_get (vkeys : List String) (skeys : List (String × String))
    (st : Store) (user_type control_type vehicle_type organism site : String)
    (start_date end_date : Option Nat) : RestResponse :=
  if user_type ∉ ["PRIVATE", "PROFESSIONAL"] then
    .invalid (renderAllowed "user_type" ["PRIVATE", "PROFESSIONAL"])
  else if control_type ∉ ["REGULAR", "REJECTED"] then
    .invalid (renderAllowed "user_type" ["REGULAR", "REJECTED"])
  else if vehicle_type ∉ vkeys then
    .invalid (renderAllowed "vehicle_type" vkeys)
  else if organism ∉ ["snct"] then
    .invalid (renderAllowed "user_type" ["snct"])
  else if (organism, site) ∉ skeys then
    .invalid (renderAllowed "site" (skeys.map fun p => p.1 ++ " " ++ p.2))
  else
    match start_date with
    | none => .invalid "start_date must be a date like 2019-01-01"
    | some sd =>
        match end_date with
        | none => .invalid "end_date must be a date like 2019-02-01"
        | some ed =>
            match storeGet st ⟨user_type, control_type, vehicle_type, organism, site⟩ with
            | none => .internalError
            | some l =>
                .ok ((l.insertionSort (· ≤ ·)).filter fun x =>
                  decide (sd ≥ x) && decide (x < ed))

/-- C6 (divergence witness): key stored with the single timestamp `105`,
queried with `start_date = 101` and `end_date = 201`.  The claim (and
the route's own parameter documentation) put `105` inside
`[start_date, end_date)`, but the chained comparison keeps only
timestamps `x` with `x ≤ start_date`, so the response is the empty
array. -/
theorem rest_get_filter_divergence :
    rest_appointments_get ["car"] [("snct", "esch_sur_alzette")] [(kSample, some [105])]
        "PRIVATE" "REGULAR" "car" "snct" "esch_sur_alzette" (some 101) (some 201)
      = .ok []
    ∧ ((101 : Nat) ≤ 105 ∧ (105 : Nat) < 201)
    ∧ (105 : Nat) ∈ [105] := by
  refine ⟨by rfl, by decide, by decide⟩

/-- A minimal JSON value model: enough structure for the upstream
response bodies the scrapper inspects. -/
inductive J where
  | str : String → J
  | num : Int → J
  | obj : List (String × J) → J
  | arr : List J → J

/-- Field access on a JSON object, `payload["name"]` with `none` for a
missing key or a non-object. -/
def getField : J → String → Option J
  | .obj fields, key => go fields key
  | _, _ => none
where go : List (String × J) → String → Option J
  | [], _ => none
  | (k, v) :: rest, key => if key = k then some v else go rest key

/-- The check in the 400 branch: `payload["code"] == "1" and
payload["type"] == "TECHNICAL"`; a missing key (Python `KeyError`), a
non-object payload (`TypeError`) and a failed comparison
(`AssertionError`) all end in the same except clause, i.e. `false`
here. -/
def is_code_one_technical (j : J) : Bool :=
  match getField j "code", getField j "type" with
  | some (.str c), some (.str t) => decide (c = "1") && decide (t = "TECHNICAL")
  | _, _ => false

/-- What the upstream returned for one GET: the HTTP status and the
body, `parsed` when `resp.json()` succeeds and `unparsable` when it
raises. -/
structure UpstreamResponse where
  status : Nat
  body : Option J

/-- The outcome of `_request` (snct_appointment_scrapper.py lines
107-144): `(payload, None)` on success, `(None, exc)` on any caught
exception. -/
inductive RequestResult where
  | success : J → RequestResult
  | failure : RequestResult

/-- `_request` on an open session: 200 yields the parsed payload; 400
with the documented `{"code": "1", "type": "TECHNICAL"}` error body is
normalized to the empty payload `{}`; every other case — 400 with any
other body, any other non-200 status, or an unparsable body — raises
and is returned as a failure. -/
def snct_request (resp : UpstreamResponse) : RequestResult :=
  if resp.status = 200 then
    match resp.body with
    | some j => .success j
    | none => .failure
  else if resp.status = 400 then
    match resp.body with
    | some j => if is_code_one_technical j then .success (.obj []) else .failure
    | none => .failure
  else .failure

/-- The claim's "empty (successful, not failed) result": success with
the empty payload `{}`. -/
def claim_empty_success : RequestResult → Bool
  | .success (.obj []) => true
  | _ => false

/-- The claim's "HTTP 400 with the documented error body shape
(code "1", type "TECHNICAL")". -/
def claim_documented_400 (resp : UpstreamResponse) : Bool :=
  decide (resp.status = 400) &&
    (match resp.body with
     | some j => is_code_one_technical j
     | none => false)

/-- C8 counterexample: a 200 response whose body parses to the empty
object also yields an empty successful result, so "empty successful
result exactly when HTTP 400 with the documented error shape" fails as
a biconditional. -/
theorem request_empty_success_not_only_400 :
    claim_empty_success (snct_request ⟨200, some (.obj [])⟩) = true
    ∧ claim_documented_400 ⟨200, some (.obj [])⟩ = false := by
  exact ⟨rfl, rfl⟩

/-- C8 amended: a 200 response yields its parsed payload as success;
among non-200 responses, the result is the empty successful payload
exactly when the status is 400 with the documented error body, and a
failure in every other case. -/
theorem request_status_handling (resp : UpstreamResponse) :
    (∀ j, resp.status = 200 → resp.body = some j → snct_request resp = .success j)
    ∧ (resp.status ≠ 200 →
        ((snct_request resp = .success (.obj [])) ↔ claim_documented_400 resp = true))
    ∧ (resp.status ≠ 200 → claim_documented_400 resp = false →
        snct_request resp = .failure) := by
  obtain ⟨status, body⟩ := resp
  refine ⟨?_, ?_, ?_⟩
  · intro j h200 hbody
    simp only at h200 hbody
    simp [snct_request, h200, hbody]
  · intro hne
    simp only at hne
    unfold snct_request claim_documented_400
    simp only [if_neg hne]
    by_cases h400 : status = 400
    · subst h400
      rcases body with _ | j
      · simp
      · by_cases hshape : is_code_one_technical j = true
        · simp [hshape]
        · simp only [Bool.not_eq_true] at hshape
          simp [hshape]
    · simp [h400, hne]
  · intro hne hdoc
    simp only at hne
    unfold snct_request
    unfold claim_documented_400 at hdoc
    simp only [if_neg hne]
    by_cases h400 : status = 400
    · subst h400
      rcases body with _ | j
      · simp
      · simp at hdoc
        simp [hdoc]
    · simp [h400]

/-- Evaluation of `request_status_handling` at the documented 400 error
body: the request is normalized to the empty successful payload. -/
theorem request_status_handling_witness :
    snct_request ⟨400, some (.obj [("code", .str "1"), ("type", .str "TECHNICAL")])⟩
      = .success (.obj []) := by
  have h := (request_status_handling
    ⟨400, some (.obj [("code", .str "1"), ("type", .str "TECHNICAL")])⟩).2.1 (by decide)
  exact h.mpr rfl

/-- One parsed slot timestamp: `strptime("%sT%s" % (date, time),
"%Y-%m-%dT%HH%M")` combines a date with an intra-day time; dates number
days and times number minutes within a day, so the combined value
`date * 1440 + time` orders exactly as the `datetime` it models. -/
def combineDateTime (date time : Nat) : Nat := date * 1440 + time

/-- The flattening loop of `refresh_appointments` (lines 245-251): the
parsed response maps each time to a list of dates (`for time in
payload: for date in payload[time]`), and one timestamp per (date,
time) pair is appended in iteration order. -/
def flatten_availability (payload : List (Nat × List Nat)) : List Nat :=
  payload.flatMap fun td => td.2.map fun date => combineDateTime date td.1

/-- C9 counterexample: the single time `480` (08H00) carrying the date
list `[2, 1, 1]` flattens to `[3360, 1920, 1920]`, which is neither
sorted in ascending order nor duplicate-free — the loop never sorts or
deduplicates. -/
theorem flatten_not_sorted_counterexample :
    flatten_availability [(480, [2, 1, 1])] = [3360, 1920, 1920]
    ∧ ¬ List.Sorted (· ≤ ·) (flatten_availability [(480, [2, 1, 1])])
    ∧ ¬ (flatten_availability [(480, [2, 1, 1])]).Nodup := by
  refine ⟨rfl, ?_, ?_⟩
  · intro h
    rw [show flatten_availability [(480, [2, 1, 1])] = [3360, 1920, 1920] from rfl] at h
    have := List.rel_of_sorted_cons h 1920 (by simp)
    omega
  · intro h
    rw [show flatten_availability [(480, [2, 1, 1])] = [3360, 1920, 1920] from rfl] at h
    simp at h

/-- C9 amended: the per-key refresh result is the flat list of one
combined timestamp per (date, time) pair of the nested response
structure, in response iteration order: its members are exactly the
date/time combinations the response holds. -/
theorem flatten_availability_members (payload : List (Nat × List Nat)) :
    ∀ x : Nat, x ∈ flatten_availability payload ↔
      ∃ td ∈ payload, ∃ d ∈ td.2, x = combineDateTime d td.1 := by
  intro x
  simp only [flatten_availability, List.mem_flatMap, List.mem_map]
  constructor
  · rintro ⟨td, htd, d, hd, rfl⟩
    exact ⟨td, htd, d, hd, rfl⟩
  · rintro ⟨td, htd, d, hd, rfl⟩
    exact ⟨td, htd, d, hd, rfl⟩

end SnctHelper
